import Mathlib

/-!
Verification development for the font-correction engine of this repository
(fix_fonts.py).  Python strings are modelled as lists of characters
(abbreviation Str), the frequency oracle (wordfreq.zipf_frequency) as a
function from strings to rational scores, raised Python exceptions as the
Except monad over an explicit error type, and the document as the ordered
list of paragraphs visited by the walkers, each paragraph an ordered list
of runs.  Every definition below is a direct translation of the
corresponding Python function; line references point into fix_fonts.py.
-/

abbrev Str := List Char

instance {ε α : Type} [DecidableEq ε] [DecidableEq α] : DecidableEq (Except ε α) := fun a b =>
  match a, b with
  | .ok x, .ok y =>
      if h : x = y then isTrue (by rw [h]) else isFalse (by intro hc; cases hc; exact h rfl)
  | .error x, .error y =>
      if h : x = y then isTrue (by rw [h]) else isFalse (by intro hc; cases hc; exact h rfl)
  | .ok _, .error _ => isFalse (by intro hc; cases hc)
  | .error _, .ok _ => isFalse (by intro hc; cases hc)

/-- Character class A-Za-z used by the tokenization regexes (lines 56-58). -/
def isLatinLetter (c : Char) : Bool :=
  (('A' ≤ c) && (c ≤ 'Z')) || (('a' ≤ c) && (c ≤ 'z'))

/-- Continuation class of an English-like word, the character class of
the second regex position in EN_LIKE_WORD_RE (line 56). -/
def isWordTailChar (c : Char) : Bool :=
  isLatinLetter c || c = '\'' || c = '-'

/-- Whitespace as matched by the backslash-s class of the Python regex
module on unicode strings (the characters Python treats as whitespace). -/
def isPySpace (c : Char) : Bool :=
  c = ' ' || c = '\t' || c = '\n' || c = '\x0b' || c = '\x0c' || c = '\r' ||
  c = '\x1c' || c = '\x1d' || c = '\x1e' || c = '\x1f' || c = '\x85' ||
  c = ' ' || c = ' ' || (' ' ≤ c && c ≤ ' ') ||
  c = ' ' || c = ' ' || c = ' ' || c = ' ' || c = '　'

/-- The control characters removed by CTRL_CHARS_RE (line 58). -/
def isCtrlRemoved (c : Char) : Bool :=
  (c ≤ '\x08') || c = '\x0b' || c = '\x0c' ||
  (('\x0e' ≤ c) && (c ≤ '\x1f')) || c = '\x7f'

/-- sanitize_text, lines 124-128: delete the control characters. -/
def sanitize_text (t : Str) : Str :=
  t.filter (fun c => !(isCtrlRemoved c))

/-- The token stripping of _clean_token and of is_english_word, lines 70
and 80-81: keep only Latin letters, apostrophe and hyphen. -/
def clean_token (t : Str) : Str :=
  t.filter isWordTailChar

/-- Python str.lower restricted to ASCII letters, the only characters that
can contribute to the markers compared against below. -/
def toLowerStr (s : Str) : Str :=
  s.map Char.toLower

/-- Boolean test that the first list is an initial segment of the second. -/
def leadsList : Str → Str → Bool
  | [], _ => true
  | _ :: _, [] => false
  | a :: as, b :: bs => a = b && leadsList as bs

/-- Python substring containment (the in operator on str). -/
def containsSub (needle : Str) : Str → Bool
  | [] => leadsList needle []
  | c :: rest => leadsList needle (c :: rest) || containsSub needle rest

/-- Leftmost position at which needle occurs in the given list, if any. -/
def firstMatchPos (needle : Str) : Str → Option Nat
  | [] => if leadsList needle [] then some 0 else none
  | c :: rest =>
      if leadsList needle (c :: rest) then some 0
      else (firstMatchPos needle rest).map (fun i => i + 1)

/-- re.escape plus pattern.search(full_text, pos=search_from), line 575-576:
leftmost literal occurrence of needle in hay at a position at or after
start. -/
def findFrom (hay needle : Str) (start : Nat) : Option Nat :=
  (firstMatchPos needle (hay.drop start)).map (fun i => i + start)

/-- One scanning pass of TOKEN_SPLIT_RE.findall (line 57, used at line
120): at each position try, in order, an English-like word (a Latin letter
followed by at least one letter, apostrophe or hyphen), a maximal
whitespace span, or a maximal span of characters that are neither Latin
letters nor whitespace; a position where no alternative matches (a single
isolated Latin letter) is skipped.  The fuel argument bounds recursion and
is always called with more fuel than characters. -/
def chunksF : Nat → Str → List Str
  | 0, _ => []
  | _, [] => []
  | fuel + 1, c :: rest =>
    if isLatinLetter c then
      let tl := rest.takeWhile isWordTailChar
      if tl = [] then chunksF fuel rest
      else (c :: tl) :: chunksF fuel (rest.drop tl.length)
    else if isPySpace c then
      let tl := rest.takeWhile isPySpace
      (c :: tl) :: chunksF fuel (rest.drop tl.length)
    else
      let tl := rest.takeWhile (fun x => !isLatinLetter x && !isPySpace x)
      (c :: tl) :: chunksF fuel (rest.drop tl.length)

/-- split_into_chunks, lines 108-121. -/
def split_into_chunks (text : Str) : List Str :=
  if text = [] then [] else chunksF (text.length + 1) text

/-- EN_LIKE_WORD_RE.fullmatch, line 56 as used at line 289. -/
def isEnLikeWord : Str → Bool
  | [] => false
  | c :: rest => isLatinLetter c && !(rest = []) && rest.all isWordTailChar

/-- The Python exceptions that reach the CLI handlers of main: the
RuntimeError raised by is_english_word when wordfreq is missing (the
ClassifierUnavailable condition) and the FileNotFoundError raised by
convert_docx and apply_sentences_docx. -/
inductive PyError where
  | runtimeError (msg : Str)
  | fileNotFoundError (msg : Str)
deriving DecidableEq

/-- The message of the RuntimeError raised at line 75. -/
def wordfreqMsg : Str :=
  ("wordfreq not installed; English detection unavailable.").data

/-- is_english_word, lines 61-77.  The optional oracle argument models the
module-level _zipf_frequency binding (lines 40-44); when it is none the
function raises (returns the RuntimeError). -/
def is_english_word (oracle : Option (Str → ℚ)) (token : Str) (threshold : ℚ) :
    Except PyError Bool :=
  if token = [] then .ok false
  else
    let cleaned := clean_token token
    if cleaned.length < 2 then .ok false
    else
      match oracle with
      | none => .error (.runtimeError wordfreqMsg)
      | some z => .ok (if threshold ≤ z (toLowerStr cleaned) then true else false)

/-- is_english_word specialised to a present oracle (the state in which
convert_docx runs, since main exits at line 832-834 when wordfreq is
missing); related to is_english_word by is_english_word_present below. -/
def is_english_wordP (z : Str → ℚ) (token : Str) (threshold : ℚ) : Bool :=
  if token = [] then false
  else
    let cleaned := clean_token token
    if cleaned.length < 2 then false
    else if threshold ≤ z (toLowerStr cleaned) then true else false

/-- should_use_tnr, lines 84-105. -/
def should_use_tnr (z : Str → ℚ) (token : Str) (threshold : ℚ)
    (srcFontName : Option Str) : Bool :=
  let cleaned := clean_token token
  if cleaned.length < 2 then false
  else if !(is_english_wordP z cleaned threshold) then false
  else
    let fontName := toLowerStr (srcFontName.getD [])
    if containsSub (("sutonny").data) fontName && cleaned.length ≤ 3 then false
    else true

/-- The w:rFonts element of a run: the four font slots, the rendering
hint, and the two theme-font attributes that set_ascii_hAnsi clears. -/
structure RFonts where
  ascii : Option Str
  hAnsi : Option Str
  eastAsia : Option Str
  cs : Option Str
  hint : Option Str
  asciiTheme : Option Str
  hAnsiTheme : Option Str
deriving DecidableEq

/-- The rFonts element freshly created by OxmlElement at line 197. -/
def emptyRFonts : RFonts :=
  ⟨none, none, none, none, none, none, none⟩

/-- The style attributes copied wholesale by clone_run_style (lines
131-161): bold, italic, underline, size, caps variants, color, style. -/
structure CharStyle where
  bold : Option Bool
  italic : Option Bool
  underline : Option Bool
  size : Option Nat
  allCaps : Option Bool
  smallCaps : Option Bool
  colorRgb : Option Str
  colorTheme : Option Str
  styleRef : Option Str
deriving DecidableEq

/-- The attribute bundle of a run freshly created by paragraph.add_run. -/
def defaultCharStyle : CharStyle :=
  ⟨none, none, none, none, none, none, none, none, none⟩

/-- A run: its text, its style bundle, its optional rFonts element, and
the structural flags computed by _is_run_in_hyperlink (lines 212-221) and
_is_run_field_code (lines 224-241). -/
structure DocxRun where
  text : Str
  style : CharStyle
  rFonts : Option RFonts
  inHyperlink : Bool
  fieldCode : Bool
deriving DecidableEq

/-- The ascii slot of the font mapping of a run, as read by python-docx
Font.name (used as src_font_name at line 284). -/
def asciiSlot (r : DocxRun) : Option Str :=
  r.rFonts.bind (fun f => f.ascii)

def hAnsiSlot (r : DocxRun) : Option Str :=
  r.rFonts.bind (fun f => f.hAnsi)

def eastAsiaSlot (r : DocxRun) : Option Str :=
  r.rFonts.bind (fun f => f.eastAsia)

def csSlot (r : DocxRun) : Option Str :=
  r.rFonts.bind (fun f => f.cs)

def hintSlot (r : DocxRun) : Option Str :=
  r.rFonts.bind (fun f => f.hint)

def asciiThemeSlot (r : DocxRun) : Option Str :=
  r.rFonts.bind (fun f => f.asciiTheme)

def hAnsiThemeSlot (r : DocxRun) : Option Str :=
  r.rFonts.bind (fun f => f.hAnsiTheme)

/-- src_font_name = run.font.name or "" (line 284). -/
def srcFontName (r : DocxRun) : Str :=
  (asciiSlot r).getD []

/-- paragraph.add_run with the given text (line 249 then the text
assignment): a fresh direct child run with default attributes. -/
def add_run (t : Str) : DocxRun :=
  ⟨t, defaultCharStyle, none, false, false⟩

/-- copy_rFonts, lines 167-188: replace the destination rFonts with a deep
copy of the source rFonts when the source has one, otherwise leave the
destination untouched. -/
def copy_rFonts (src dst : DocxRun) : DocxRun :=
  match src.rFonts with
  | none => dst
  | some f => { dst with rFonts := some f }

/-- clone_run_style, lines 131-164: copy the style bundle and then the
full rFonts mapping. -/
def clone_run_style (src dst : DocxRun) : DocxRun :=
  copy_rFonts src { dst with style := src.style }

/-- set_ascii_hAnsi, lines 191-209: create the rFonts element when
missing, set ascii and hAnsi to the given font name, and drop the
asciiTheme and hAnsiTheme attributes. -/
def set_ascii_hAnsi (run : DocxRun) (fontName : Str) : DocxRun :=
  let f := run.rFonts.getD emptyRFonts
  { run with
      rFonts := some { f with
        ascii := some fontName, hAnsi := some fontName,
        asciiTheme := none, hAnsiTheme := none } }

/-- Result of process_run: the newly inserted runs in document order, the
original run after processing, and the two counters it returns. -/
structure ProcessResult where
  emitted : List DocxRun
  original : DocxRun
  runsScanned : Nat
  englishChanged : Nat
deriving DecidableEq

/-- The loop body of process_run for one chunk, lines 288-307: decide
make_tnr, create the run after the anchor, set its text, clone the style,
and force Times New Roman on the ascii and hAnsi slots when make_tnr. -/
def processChunk (z : Str → ℚ) (threshold : ℚ) (run : DocxRun) (chunk : Str) : DocxRun :=
  let make_tnr := isEnLikeWord chunk && should_use_tnr z chunk threshold (some (srcFontName run))
  let newRun := clone_run_style run (add_run chunk)
  if make_tnr then set_ascii_hAnsi newRun (("Times New Roman").data) else newRun

/-- process_run, lines 258-312. -/
def process_run (z : Str → ℚ) (threshold : ℚ) (run : DocxRun) : ProcessResult :=
  let text := sanitize_text run.text
  if text = [] then ⟨[], run, 0, 0⟩
  else if run.inHyperlink then ⟨[], run, 1, 0⟩
  else if run.fieldCode then ⟨[], run, 1, 0⟩
  else
    let chunks := split_into_chunks text
    if chunks = [] then ⟨[], run, 1, 0⟩
    else
      let emitted := chunks.map (processChunk z threshold run)
      let enChanged :=
        (chunks.filter (fun c =>
          isEnLikeWord c && should_use_tnr z c threshold (some (srcFontName run)))).length
      ⟨emitted, { run with text := [] }, 1, enChanged⟩

/-- process_paragraph, lines 315-331: each original run stays in place
(with its text cleared when rewritten) followed by the runs inserted after
it; the counters are accumulated. -/
def process_paragraph (z : Str → ℚ) (threshold : ℚ) (para : List DocxRun) :
    List DocxRun × Nat × Nat :=
  para.foldl
    (fun acc run =>
      let res := process_run z threshold run
      (acc.1 ++ (res.original :: res.emitted),
       acc.2.1 + res.runsScanned, acc.2.2 + res.englishChanged))
    ([], 0, 0)

/-- The flattened paragraph text built by build_paragraph_text_map, lines
495-510: the concatenation of all run texts in order.  The index mapping
of that function is recovered below by the running cursor of
applyMatchGo. -/
def flatText (para : List DocxRun) : Str :=
  (para.map (fun r => r.text)).flatten

def flatLen (para : List DocxRun) : Nat :=
  (flatText para).length

/-- split_run_apply_tnr, lines 513-555: skip structural runs, clamp the
local range to the run text, return untouched when the clamped range is
empty, otherwise emit up to three runs (text before the slice with the
original style and fonts, the slice itself with ascii and hAnsi forced to
Times New Roman, text after the slice) and clear the original run.  The
pair returned is (newly inserted runs in order, original run after the
call). -/
def split_run_apply_tnr (run : DocxRun) (localStart localEnd : Int) :
    List DocxRun × DocxRun :=
  if run.inHyperlink || run.fieldCode then ([], run)
  else
    let text := run.text
    let ls : Int := if localStart < 0 then 0 else localStart
    let le : Int := if (text.length : Int) < localEnd then (text.length : Int) else localEnd
    if le ≤ ls then ([], run)
    else
      let s := ls.toNat
      let e := le.toNat
      let before := text.take s
      let target := (text.drop s).take (e - s)
      let after := text.drop e
      let bRuns := if before = [] then [] else [clone_run_style run (add_run before)]
      let tRun := set_ascii_hAnsi (clone_run_style run (add_run target)) (("Times New Roman").data)
      let aRuns := if after = [] then [] else [clone_run_style run (add_run after)]
      (bRuns ++ tRun :: aRuns, { run with text := [] })

/-- The per-run loop of apply_sentence_to_paragraph, lines 583-589, over
the mapping of build_paragraph_text_map: walk the runs with a cursor over
the original texts and apply split_run_apply_tnr to every run whose range
overlaps the match span [gStart, gEnd); each processed original run stays
in place followed by the runs inserted after it. -/
def applyMatchGo (gStart gEnd : Nat) : List DocxRun → Nat → List DocxRun
  | [], _ => []
  | r :: rs, cursor =>
    let rStart := cursor
    let rEnd := cursor + r.text.length
    let os := max gStart rStart
    let oe := min gEnd rEnd
    if os < oe then
      let res := split_run_apply_tnr r ((os : Int) - (rStart : Int)) ((oe : Int) - (rStart : Int))
      res.2 :: res.1 ++ applyMatchGo gStart gEnd rs rEnd
    else r :: applyMatchGo gStart gEnd rs rEnd

def applyMatch (para : List DocxRun) (gStart gEnd : Nat) : List DocxRun :=
  applyMatchGo gStart gEnd para 0

/-- The rescan loop of apply_sentence_to_paragraph, lines 569-593: rebuild
the flattened text, stop when the resume position passed its end or the
sentence no longer occurs, otherwise convert the leftmost occurrence and
resume just past its end.  The fuel argument makes each iteration
structural; sentLoopTerminates below proves that the fuel used by
apply_sentence_to_paragraph always suffices, which is exactly the
termination of the Python while loop. -/
def sentLoop (fuel : Nat) (para : List DocxRun) (sentence : Str)
    (searchFrom converted : Nat) : Option (List DocxRun × Nat) :=
  match fuel with
  | 0 => none
  | fuel + 1 =>
    let full := flatText para
    if full = [] then some (para, converted)
    else if full.length ≤ searchFrom then some (para, converted)
    else
      match findFrom full sentence searchFrom with
      | none => some (para, converted)
      | some gStart =>
        let gEnd := gStart + sentence.length
        sentLoop fuel (applyMatch para gStart gEnd) sentence gEnd (converted + 1)

/-- apply_sentence_to_paragraph, lines 558-595: returns the rewritten
paragraph together with the number of matches converted.  The getD
fallback is dead code by sentLoopTerminates. -/
def apply_sentence_to_paragraph (para : List DocxRun) (sentence : Str) :
    List DocxRun × Nat :=
  if sentence = [] then (para, 0)
  else (sentLoop (flatLen para + 1) para sentence 0 0).getD (para, 0)

/-- os.path.splitext needs the last index of a character (str.rfind). -/
def lastIdxOf (ch : Char) : Str → Option Nat
  | [] => none
  | c :: t =>
    match lastIdxOf ch t with
    | some i => some (i + 1)
    | none => if c = ch then some 0 else none

/-- os.path.splitext on posix paths, as used at lines 449, 454, 646:
split at the last dot of the final path component unless every character
between the last slash and that dot is itself a dot. -/
def splitext (p : Str) : Str × Str :=
  match lastIdxOf '.' p with
  | none => (p, [])
  | some d =>
    let sepOk : Bool :=
      match lastIdxOf '/' p with
      | none => true
      | some s => s < d
    if sepOk then
      let start : Nat :=
        match lastIdxOf '/' p with
        | none => 0
        | some s => s + 1
      if ((p.drop start).take (d - start)).any (fun c => !(c = '.')) then
        (p.take d, p.drop d)
      else (p, [])
    else (p, [])

/-- str.split on the path separator, keeping empty components, as done by
posixpath.normpath. -/
def splitComps : Str → List Str
  | [] => [[]]
  | c :: rest =>
    if c = '/' then [] :: splitComps rest
    else
      match splitComps rest with
      | [] => [[c]]
      | h :: t => (c :: h) :: t

/-- Append a suffix to the last element of a component list. -/
def modLastApp (x : Str) : List Str → List Str
  | [] => []
  | [h] => [h ++ x]
  | h :: t => h :: modLastApp x t

/-- The leading-slash count computed by posixpath.normpath: one slash, or
two when the path starts with exactly two slashes. -/
def initialSlashes (p : Str) : Nat :=
  if p.take 1 = ['/'] then
    if p.take 2 = ['/', '/'] ∧ ¬(p.take 3 = ['/', '/', '/']) then 2 else 1
  else 0

/-- The component-stack step of posixpath.normpath: drop empty and dot
components, pop on a dotdot when possible, otherwise append. -/
def ncStep (ini : Nat) (acc : List Str) (comp : Str) : List Str :=
  if comp = [] ∨ comp = (".").data then acc
  else if ¬(comp = ("..").data) ∨ (ini = 0 ∧ acc = []) ∨
          acc.getLast? = some (("..").data) then
    acc ++ [comp]
  else if acc = [] then acc
  else acc.dropLast

/-- The separator join of posixpath.normpath. -/
def joinSlash : List Str → Str
  | [] => []
  | [x] => x
  | x :: xs => x ++ '/' :: joinSlash xs

/-- posixpath.normpath. -/
def normpath (p : Str) : Str :=
  if p = [] then (".").data
  else
    let ini := initialSlashes p
    let newComps := (splitComps p).foldl (ncStep ini) []
    let out := List.replicate ini '/' ++ joinSlash newComps
    if out = [] then (".").data else out

def isAbs (p : Str) : Bool :=
  p.take 1 = ['/']

/-- posixpath.join of two components. -/
def joinPath (a b : Str) : Str :=
  if isAbs b then b
  else if a = [] ∨ a.getLast? = some '/' then a ++ b
  else a ++ '/' :: b

/-- os.path.abspath on posix relative to the given working directory. -/
def abspath (cwd p : Str) : Str :=
  normpath (joinPath cwd p)

/-- apply_sentences_docx, lines 598-653, with the file system abstracted:
fileExists stands for os.path.isfile(in_path), the document is the ordered
list of paragraphs visited by the body, table, header and footer walkers
(lines 609-643), and the result carries the written path, the rewritten
document, and the converted-match total. -/
def apply_sentences_docx (fileExists : Bool) (inPath : Str) (outPath : Option Str)
    (cwd : Str) (doc : List (List DocxRun)) (sentences : List Str) :
    Except PyError (Str × List (List DocxRun) × Nat) :=
  if !fileExists then
    .error (.fileNotFoundError ((("Input file not found: ").data) ++ inPath))
  else
    let step := fun (acc : List (List DocxRun) × Nat) (p : List DocxRun) =>
      let pc := sentences.foldl
        (fun (pc : List DocxRun × Nat) s =>
          let r := apply_sentence_to_paragraph pc.1 s
          (r.1, pc.2 + r.2))
        (p, 0)
      (acc.1 ++ [pc.1], acc.2 + pc.2)
    let res := doc.foldl step ([], 0)
    let be := splitext inPath
    let extOr := if be.2 = [] then ((".docx").data) else be.2
    let out0 := outPath.getD (be.1 ++ (("_fixed").data) ++ extOr)
    let out :=
      if abspath cwd out0 = abspath cwd inPath then be.1 ++ (("_fixed").data) ++ extOr
      else out0
    .ok (out, res.1, res.2)

/-- convert_docx, lines 397-467, with the same abstractions: the result is
the written path (none on a dry run) and the rewritten document. -/
def convert_docx (z : Str → ℚ) (fileExists : Bool) (inPath : Str)
    (outPath : Option Str) (threshold : ℚ) (dryRun : Bool) (cwd : Str)
    (doc : List (List DocxRun)) :
    Except PyError (Option Str × List (List DocxRun)) :=
  if !fileExists then
    .error (.fileNotFoundError ((("Input file not found: ").data) ++ inPath))
  else
    let doc2 := doc.map (fun p => (process_paragraph z threshold p).1)
    if dryRun then .ok (none, doc2)
    else
      let be := splitext inPath
      let extOr := if be.2 = [] then ((".docx").data) else be.2
      let out0 := outPath.getD (be.1 ++ (("_fixed").data) ++ extOr)
      let out :=
        if abspath cwd out0 = abspath cwd inPath then be.1 ++ (("_fixed").data) ++ extOr
        else out0
      .ok (some out, doc2)

/-- The argument state reaching the mode dispatch of main, lines 785-843.
ordered is the deduplicated sentence list computed at lines 789-816 from
the sentences and sentences-file options, and sentencesFileError records
the read failure handled at lines 801-808; the collection itself touches
only those options, never the input document path. -/
structure MainArgs where
  inPath : Option Str
  outPath : Option Str
  threshold : ℚ
  dryRun : Bool
  sentenceMode : Bool
  sentencesFileError : Bool
  ordered : List Str

inductive MainResult where
  | ok
  | exit (code : Nat)
deriving DecidableEq

/-- main, lines 771-843, after argument parsing and logging setup, with
the gui branch omitted: the sentence-mode branch exits 2 on a missing
input option, a failed sentences-file read or an empty sentence list and
exits 1 on any exception from apply_sentences_docx; the frequency branch
exits 2 on a missing input option or a missing oracle, 2 on
FileNotFoundError from convert_docx and 1 on any other exception. -/
def mainModel (oraclePresent : Bool) (z : Str → ℚ) (fileExists : Bool) (cwd : Str)
    (doc : List (List DocxRun)) (args : MainArgs) : MainResult :=
  if args.sentenceMode then
    if args.inPath = none then .exit 2
    else if args.sentencesFileError then .exit 2
    else if args.ordered = [] then .exit 2
    else
      match apply_sentences_docx fileExists (args.inPath.getD []) args.outPath cwd doc args.ordered with
      | .error _ => .exit 1
      | .ok _ => .ok
  else if args.inPath = none then .exit 2
  else if !oraclePresent then .exit 2
  else
    match convert_docx z fileExists (args.inPath.getD []) args.outPath args.threshold args.dryRun cwd doc with
    | .error (.fileNotFoundError _) => .exit 2
    | .error _ => .exit 1
    | .ok _ => .ok

/-- is_english_word with a present oracle never raises and agrees with its
pure specialisation. -/
theorem is_english_word_present (z : Str → ℚ) (token : Str) (th : ℚ) :
    is_english_word (some z) token th = Except.ok (is_english_wordP z token th) := by
  unfold is_english_word is_english_wordP
  by_cases h : token = []
  · simp [h]
  · by_cases h2 : (clean_token token).length < 2 <;> simp [h, h2]

/-- Claim C1.  The claim asserts lossless tokenization and rewriting; the
code violates it: a single isolated Latin letter matches none of the three
alternatives of TOKEN_SPLIT_RE (the word alternative needs length at least
two), so findall silently skips it.  On the run text consisting of the
letter I, a space and the word am, split_into_chunks drops the I, the
emitted runs concatenate to a strict subsequence of the sanitized text,
and process_run still clears the original run, losing the letter from the
document. -/
theorem tokenizer_drops_isolated_letter :
    split_into_chunks (("I am").data) = [(" ").data, (("am").data)] ∧
    (split_into_chunks (("I am").data)).flatten ≠ ("I am").data ∧
    ((process_run (fun _ => (0:ℚ)) 3 ⟨("I am").data, defaultCharStyle, none, false, false⟩).emitted.map
        (fun r => r.text)).flatten ≠ sanitize_text (("I am").data) ∧
    (process_run (fun _ => (0:ℚ)) 3 ⟨("I am").data, defaultCharStyle, none, false, false⟩).original.text = [] := by
  decide

/-- Claim C2.  Runs flagged as sitting inside a hyperlink or a field code
pass through both rewriting entry points completely unchanged: process_run
emits no runs, leaves the run itself (text, style, fonts) untouched and
counts no conversions, and split_run_apply_tnr returns the run unchanged
with no new runs, for every text, threshold and requested range. -/
theorem structural_runs_pass_through (z : Str → ℚ) (th : ℚ) (run : DocxRun)
    (ls le : Int) (h : run.inHyperlink = true ∨ run.fieldCode = true) :
    (process_run z th run).emitted = [] ∧
    (process_run z th run).original = run ∧
    (process_run z th run).englishChanged = 0 ∧
    split_run_apply_tnr run ls le = ([], run) := by
  have hsplit : split_run_apply_tnr run ls le = ([], run) := by
    unfold split_run_apply_tnr
    rcases h with h | h <;> simp [h]
  have hproc : (process_run z th run).emitted = [] ∧
      (process_run z th run).original = run ∧
      (process_run z th run).englishChanged = 0 := by
    unfold process_run
    rcases h with h | h
    · by_cases hs : sanitize_text run.text = [] <;> simp [hs, h]
    · by_cases hs : sanitize_text run.text = [] <;>
        by_cases hh : run.inHyperlink <;> simp [hs, h, hh]
  exact ⟨hproc.1, hproc.2.1, hproc.2.2, hsplit⟩

theorem structural_runs_pass_through_witness :
    ((⟨("x").data, defaultCharStyle, none, true, false⟩ : DocxRun).inHyperlink = true ∨
     (⟨("x").data, defaultCharStyle, none, true, false⟩ : DocxRun).fieldCode = true) ∧
    ((process_run (fun _ => (5:ℚ)) 3 ⟨("x").data, defaultCharStyle, none, true, false⟩).emitted = [] ∧
     (process_run (fun _ => (5:ℚ)) 3 ⟨("x").data, defaultCharStyle, none, true, false⟩).original =
       ⟨("x").data, defaultCharStyle, none, true, false⟩ ∧
     (process_run (fun _ => (5:ℚ)) 3 ⟨("x").data, defaultCharStyle, none, true, false⟩).englishChanged = 0 ∧
     split_run_apply_tnr ⟨("x").data, defaultCharStyle, none, true, false⟩ 0 1 =
       ([], ⟨("x").data, defaultCharStyle, none, true, false⟩)) :=
  ⟨Or.inl rfl,
   structural_runs_pass_through (fun _ => (5:ℚ)) 3 _ 0 1 (Or.inl rfl)⟩

/-- Claim C3.  A run emitted for a chunk that is relabeled to the Latin
font gets ascii and hAnsi set to Times New Roman with the two theme-font
attributes cleared, while its east-Asian slot, complex-script slot and
rendering hint are exactly the values of the source run; its text is the
chunk and its copied style bundle is that of the source run. -/
theorem relabeled_chunk_font_slots (z : Str → ℚ) (th : ℚ) (run : DocxRun) (chunk : Str)
    (h : (isEnLikeWord chunk && should_use_tnr z chunk th (some (srcFontName run))) = true) :
    asciiSlot (processChunk z th run chunk) = some (("Times New Roman").data) ∧
    hAnsiSlot (processChunk z th run chunk) = some (("Times New Roman").data) ∧
    asciiThemeSlot (processChunk z th run chunk) = none ∧
    hAnsiThemeSlot (processChunk z th run chunk) = none ∧
    eastAsiaSlot (processChunk z th run chunk) = eastAsiaSlot run ∧
    csSlot (processChunk z th run chunk) = csSlot run ∧
    hintSlot (processChunk z th run chunk) = hintSlot run ∧
    (processChunk z th run chunk).text = chunk ∧
    (processChunk z th run chunk).style = run.style := by
  unfold processChunk
  rcases hrf : run.rFonts with _ | f <;>
    simp [h, hrf, set_ascii_hAnsi, clone_run_style, copy_rFonts, add_run, emptyRFonts,
      asciiSlot, hAnsiSlot, eastAsiaSlot, csSlot, hintSlot, asciiThemeSlot, hAnsiThemeSlot]

theorem relabeled_chunk_font_slots_witness :
    ((isEnLikeWord (("hello").data) &&
      should_use_tnr (fun _ => (5:ℚ)) (("hello").data) 3
        (some (srcFontName ⟨("hello").data, defaultCharStyle,
          some ⟨some (("Arial").data), none, some (("SimSun").data),
            some (("Vrinda").data), some (("eastAsia").data),
            some (("minorHAnsi").data), some (("minorHAnsi").data)⟩,
          false, false⟩))) = true) ∧
    (asciiSlot (processChunk (fun _ => (5:ℚ)) 3 ⟨("hello").data, defaultCharStyle,
        some ⟨some (("Arial").data), none, some (("SimSun").data),
          some (("Vrinda").data), some (("eastAsia").data),
          some (("minorHAnsi").data), some (("minorHAnsi").data)⟩,
        false, false⟩ (("hello").data)) = some (("Times New Roman").data) ∧
     hAnsiSlot (processChunk (fun _ => (5:ℚ)) 3 ⟨("hello").data, defaultCharStyle,
        some ⟨some (("Arial").data), none, some (("SimSun").data),
          some (("Vrinda").data), some (("eastAsia").data),
          some (("minorHAnsi").data), some (("minorHAnsi").data)⟩,
        false, false⟩ (("hello").data)) = some (("Times New Roman").data) ∧
     asciiThemeSlot (processChunk (fun _ => (5:ℚ)) 3 ⟨("hello").data, defaultCharStyle,
        some ⟨some (("Arial").data), none, some (("SimSun").data),
          some (("Vrinda").data), some (("eastAsia").data),
          some (("minorHAnsi").data), some (("minorHAnsi").data)⟩,
        false, false⟩ (("hello").data)) = none ∧
     hAnsiThemeSlot (processChunk (fun _ => (5:ℚ)) 3 ⟨("hello").data, defaultCharStyle,
        some ⟨some (("Arial").data), none, some (("SimSun").data),
          some (("Vrinda").data), some (("eastAsia").data),
          some (("minorHAnsi").data), some (("minorHAnsi").data)⟩,
        false, false⟩ (("hello").data)) = none ∧
     eastAsiaSlot (processChunk (fun _ => (5:ℚ)) 3 ⟨("hello").data, defaultCharStyle,
        some ⟨some (("Arial").data), none, some (("SimSun").data),
          some (("Vrinda").data), some (("eastAsia").data),
          some (("minorHAnsi").data), some (("minorHAnsi").data)⟩,
        false, false⟩ (("hello").data)) =
       eastAsiaSlot ⟨("hello").data, defaultCharStyle,
        some ⟨some (("Arial").data), none, some (("SimSun").data),
          some (("Vrinda").data), some (("eastAsia").data),
          some (("minorHAnsi").data), some (("minorHAnsi").data)⟩,
        false, false⟩ ∧
     csSlot (processChunk (fun _ => (5:ℚ)) 3 ⟨("hello").data, defaultCharStyle,
        some ⟨some (("Arial").data), none, some (("SimSun").data),
          some (("Vrinda").data), some (("eastAsia").data),
          some (("minorHAnsi").data), some (("minorHAnsi").data)⟩,
        false, false⟩ (("hello").data)) =
       csSlot ⟨("hello").data, defaultCharStyle,
        some ⟨some (("Arial").data), none, some (("SimSun").data),
          some (("Vrinda").data), some (("eastAsia").data),
          some (("minorHAnsi").data), some (("minorHAnsi").data)⟩,
        false, false⟩ ∧
     hintSlot (processChunk (fun _ => (5:ℚ)) 3 ⟨("hello").data, defaultCharStyle,
        some ⟨some (("Arial").data), none, some (("SimSun").data),
          some (("Vrinda").data), some (("eastAsia").data),
          some (("minorHAnsi").data), some (("minorHAnsi").data)⟩,
        false, false⟩ (("hello").data)) =
       hintSlot ⟨("hello").data, defaultCharStyle,
        some ⟨some (("Arial").data), none, some (("SimSun").data),
          some (("Vrinda").data), some (("eastAsia").data),
          some (("minorHAnsi").data), some (("minorHAnsi").data)⟩,
        false, false⟩ ∧
     (processChunk (fun _ => (5:ℚ)) 3 ⟨("hello").data, defaultCharStyle,
        some ⟨some (("Arial").data), none, some (("SimSun").data),
          some (("Vrinda").data), some (("eastAsia").data),
          some (("minorHAnsi").data), some (("minorHAnsi").data)⟩,
        false, false⟩ (("hello").data)).text = ("hello").data ∧
     (processChunk (fun _ => (5:ℚ)) 3 ⟨("hello").data, defaultCharStyle,
        some ⟨some (("Arial").data), none, some (("SimSun").data),
          some (("Vrinda").data), some (("eastAsia").data),
          some (("minorHAnsi").data), some (("minorHAnsi").data)⟩,
        false, false⟩ (("hello").data)).style = defaultCharStyle) :=
  ⟨by decide, relabeled_chunk_font_slots (fun _ => (5:ℚ)) 3 _ _ (by decide)⟩

/-- Claim C4.  For any token whose stripped form has length between two
and three, any threshold and any oracle scores, should_use_tnr refuses the
Times New Roman relabel whenever the source font name contains the legacy
transliteration-font marker sutonny case-insensitively. -/
theorem short_sutonny_token_not_relabeled (z : Str → ℚ) (token : Str) (th : ℚ)
    (fn : Option Str)
    (h2 : 2 ≤ (clean_token token).length) (h3 : (clean_token token).length ≤ 3)
    (hs : containsSub (("sutonny").data) (toLowerStr (fn.getD [])) = true) :
    should_use_tnr z token th fn = false := by
  unfold should_use_tnr
  have hlt : ¬((clean_token token).length < 2) := by omega
  by_cases he : is_english_wordP z (clean_token token) th
  · simp [hlt, he, hs, h3]
  · simp [hlt, he]

theorem short_sutonny_token_not_relabeled_witness :
    (2 ≤ (clean_token (("am").data)).length ∧
     (clean_token (("am").data)).length ≤ 3 ∧
     containsSub (("sutonny").data) (toLowerStr ((some (("SutonnyMJ").data)).getD [])) = true) ∧
    should_use_tnr (fun _ => (9:ℚ)) (("am").data) 0 (some (("SutonnyMJ").data)) = false :=
  ⟨⟨by decide, by decide, by decide⟩,
   short_sutonny_token_not_relabeled (fun _ => (9:ℚ)) _ 0 _ (by decide) (by decide) (by decide)⟩

/-- Claim C5, counterexample.  The claim quantifies over every token: for
the single-letter token a, with an oracle scoring every token 5 and both
thresholds 3, the oracle score is at least the first threshold and the
second threshold is no larger, yet is_english_word returns false (not
true), because the stripped token is shorter than two characters and the
oracle is never consulted. -/
theorem classifier_monotonicity_cex :
    ((3:ℚ) ≤ (fun _ : Str => (5:ℚ)) (("a").data)) ∧ ((3:ℚ) ≤ (3:ℚ)) ∧
    is_english_word (some (fun _ : Str => (5:ℚ))) (("a").data) 3 ≠ Except.ok true := by
  refine ⟨by decide, by decide, by decide⟩

/-- Claim C5, amended: the monotonicity holds for every token whose
stripped form has length at least two (the tokens the oracle is actually
consulted for), with the score taken, as in the code, on the lower-cased
stripped token: if that score reaches threshold one and threshold two is
no larger, is_english_word accepts at threshold two. -/
theorem classifier_monotonic_in_threshold (z : Str → ℚ) (token : Str) (t1 t2 : ℚ)
    (hlen : 2 ≤ (clean_token token).length)
    (hsc : t1 ≤ z (toLowerStr (clean_token token))) (hth : t2 ≤ t1) :
    is_english_word (some z) token t2 = Except.ok true := by
  have hne : ¬(token = []) := by
    intro h
    rw [h] at hlen
    simp [clean_token] at hlen
  have hlt : ¬((clean_token token).length < 2) := by omega
  unfold is_english_word
  simp [hne, hlt, le_trans hth hsc]

theorem classifier_monotonic_in_threshold_witness :
    (2 ≤ (clean_token (("the").data)).length ∧
     (4:ℚ) ≤ (fun _ : Str => (5:ℚ)) (toLowerStr (clean_token (("the").data))) ∧
     (3:ℚ) ≤ (4:ℚ)) ∧
    is_english_word (some (fun _ : Str => (5:ℚ))) (("the").data) 3 = Except.ok true :=
  ⟨⟨by decide, by decide, by decide⟩,
   classifier_monotonic_in_threshold (fun _ : Str => (5:ℚ)) _ 4 3 (by decide) (by decide) (by decide)⟩

/-- Claim C6.  When the oracle is absent, is_english_word fails with the
ClassifierUnavailable condition (the RuntimeError) for every token it
would otherwise score (stripped length at least two), rather than
returning a silent false; and apply_sentences_docx never produces that
failure for any file state, document or sentence list, since it never
consults the oracle. -/
theorem oracle_absence_confined (token : Str) (th : ℚ) (fe : Bool) (ip : Str)
    (op : Option Str) (cwd : Str) (doc : List (List DocxRun)) (ss : List Str) (m : Str)
    (hlen : 2 ≤ (clean_token token).length) :
    is_english_word none token th = Except.error (PyError.runtimeError wordfreqMsg) ∧
    apply_sentences_docx fe ip op cwd doc ss ≠ Except.error (PyError.runtimeError m) := by
  constructor
  · have hne : ¬(token = []) := by
      intro h
      rw [h] at hlen
      simp [clean_token] at hlen
    have hlt : ¬((clean_token token).length < 2) := by omega
    simp [is_english_word, hne, hlt]
  · unfold apply_sentences_docx
    cases fe <;> simp

theorem oracle_absence_confined_witness :
    (2 ≤ (clean_token (("am").data)).length) ∧
    (is_english_word none (("am").data) 3 = Except.error (PyError.runtimeError wordfreqMsg) ∧
     apply_sentences_docx true (("a.docx").data) none (("/h").data) [] [(("Hi.").data)] ≠
       Except.error (PyError.runtimeError [])) :=
  ⟨by decide,
   oracle_absence_confined (("am").data) 3 true (("a.docx").data) none (("/h").data)
     [] [(("Hi.").data)] [] (by decide)⟩

/-- Claim C7, counterexample.  In sentence mode with a valid sentence list
and a nonexistent input document, main does not exit with code 2: the
FileNotFoundError raised by apply_sentences_docx is swallowed by the
blanket exception handler of the sentence branch, which exits with code 1. -/
theorem missing_input_sentence_mode_cex :
    mainModel true (fun _ => (0:ℚ)) false (("/h").data) []
      ⟨some (("a.docx").data), none, 3, false, true, false, [(("Hi.").data)]⟩ =
      MainResult.exit 1 ∧
    ¬(mainModel true (fun _ => (0:ℚ)) false (("/h").data) []
      ⟨some (("a.docx").data), none, 3, false, true, false, [(("Hi.").data)]⟩ =
      MainResult.exit 2) := by
  refine ⟨by decide, by decide⟩

/-- Claim C7, amended: when the source document path does not exist, the
frequency-mode branch of main exits with code 2 (its handler catches
FileNotFoundError specially), while the sentence-mode branch exits with
code 1, because its blanket handler maps every exception, including
FileNotFoundError, to exit code 1. -/
theorem missing_input_exit_codes (z : Str → ℚ) (cwd ip : Str) (op : Option Str)
    (th : ℚ) (dr : Bool) (doc : List (List DocxRun)) (ord : List Str) (opr : Bool)
    (hord : ¬(ord = [])) :
    mainModel true z false cwd doc ⟨some ip, op, th, dr, false, false, ord⟩ =
      MainResult.exit 2 ∧
    mainModel opr z false cwd doc ⟨some ip, op, th, dr, true, false, ord⟩ =
      MainResult.exit 1 := by
  constructor
  · unfold mainModel convert_docx
    simp
  · unfold mainModel apply_sentences_docx
    simp [hord]

theorem missing_input_exit_codes_witness :
    (¬([(("Hi.").data)] = ([] : List Str))) ∧
    (mainModel true (fun _ => (0:ℚ)) false (("/h").data) []
       ⟨some (("a.docx").data), none, 3, false, false, false, [(("Hi.").data)]⟩ =
       MainResult.exit 2 ∧
     mainModel true (fun _ => (0:ℚ)) false (("/h").data) []
       ⟨some (("a.docx").data), none, 3, false, true, false, [(("Hi.").data)]⟩ =
       MainResult.exit 1) :=
  ⟨by decide,
   missing_input_exit_codes (fun _ => (0:ℚ)) (("/h").data) (("a.docx").data) none 3 false
     [] [(("Hi.").data)] true (by decide)⟩

/-- Slicing a list at s and e and concatenating the three parts restores
the list. -/
theorem slice_concat (t : Str) (s e : Nat) (hse : s ≤ e) (_hel : e ≤ t.length) :
    t.take s ++ (t.drop s).take (e - s) ++ t.drop e = t := by
  have hd : t.drop e = (t.drop s).drop (e - s) := by
    rw [List.drop_drop]
    congr 1
    omega
  rw [List.append_assoc, hd, List.take_append_drop, List.take_append_drop]

/-- The runs created by _insert_run_after plus clone_run_style carry the
rFonts mapping of the source run unchanged. -/
theorem clone_rFonts_eq (src : DocxRun) (t : Str) :
    (clone_run_style src (add_run t)).rFonts = src.rFonts := by
  unfold clone_run_style copy_rFonts add_run
  cases src.rFonts <;> simp

theorem clone_style_eq (src : DocxRun) (t : Str) :
    (clone_run_style src (add_run t)).style = src.style := by
  unfold clone_run_style copy_rFonts add_run
  cases src.rFonts <;> simp

theorem clone_text_eq (src : DocxRun) (t : Str) :
    (clone_run_style src (add_run t)).text = t := by
  unfold clone_run_style copy_rFonts add_run
  cases src.rFonts <;> simp

/-- Claim C9.  On a non-structural run whose requested range is non-empty
after clamping, split_run_apply_tnr emits, in order, the before part
(only if non-empty, carrying the original style and fonts), the target
slice with ascii and hAnsi forced to Times New Roman and all other slots
preserved, and the after part (only if non-empty, original style and
fonts), and clears the original run; the three slices concatenate to the
original run text. -/
theorem sentence_split_three_parts (run : DocxRun) (localStart localEnd : Int)
    (hh : run.inHyperlink = false) (hf : run.fieldCode = false)
    (hcl : (if localStart < 0 then (0:Int) else localStart) <
           (if (run.text.length : Int) < localEnd then (run.text.length : Int) else localEnd)) :
    (let s := (if localStart < 0 then (0:Int) else localStart).toNat
     let e := (if (run.text.length : Int) < localEnd then (run.text.length : Int) else localEnd).toNat
     let before := run.text.take s
     let target := (run.text.drop s).take (e - s)
     let after := run.text.drop e
     split_run_apply_tnr run localStart localEnd =
       ((if before = [] then [] else [clone_run_style run (add_run before)]) ++
          set_ascii_hAnsi (clone_run_style run (add_run target)) (("Times New Roman").data) ::
          (if after = [] then [] else [clone_run_style run (add_run after)]),
        { run with text := [] }) ∧
     before ++ target ++ after = run.text ∧
     (clone_run_style run (add_run before)).rFonts = run.rFonts ∧
     (clone_run_style run (add_run before)).style = run.style ∧
     (clone_run_style run (add_run after)).rFonts = run.rFonts ∧
     (clone_run_style run (add_run after)).style = run.style ∧
     asciiSlot (set_ascii_hAnsi (clone_run_style run (add_run target)) (("Times New Roman").data)) =
       some (("Times New Roman").data) ∧
     hAnsiSlot (set_ascii_hAnsi (clone_run_style run (add_run target)) (("Times New Roman").data)) =
       some (("Times New Roman").data) ∧
     eastAsiaSlot (set_ascii_hAnsi (clone_run_style run (add_run target)) (("Times New Roman").data)) =
       eastAsiaSlot run ∧
     csSlot (set_ascii_hAnsi (clone_run_style run (add_run target)) (("Times New Roman").data)) =
       csSlot run ∧
     hintSlot (set_ascii_hAnsi (clone_run_style run (add_run target)) (("Times New Roman").data)) =
       hintSlot run ∧
     (set_ascii_hAnsi (clone_run_style run (add_run target)) (("Times New Roman").data)).style =
       run.style) := by
  have hnot : ¬((if (run.text.length : Int) < localEnd then (run.text.length : Int) else localEnd) ≤
      (if localStart < 0 then (0:Int) else localStart)) := not_le.mpr hcl
  have hs0 : (0:Int) ≤ (if localStart < 0 then (0:Int) else localStart) := by
    split <;> omega
  have _hel : (if (run.text.length : Int) < localEnd then (run.text.length : Int) else localEnd) ≤
      (run.text.length : Int) := by
    split <;> omega
  refine ⟨?_, ?_, clone_rFonts_eq run _, clone_style_eq run _,
    clone_rFonts_eq run _, clone_style_eq run _, ?_, ?_, ?_, ?_, ?_, ?_⟩
  · unfold split_run_apply_tnr
    rw [hh, hf]
    simp only [Bool.or_self, Bool.false_eq_true, if_false, if_neg hnot]
  · exact slice_concat run.text
      ((if localStart < 0 then (0:Int) else localStart)).toNat
      ((if (run.text.length : Int) < localEnd then (run.text.length : Int) else localEnd)).toNat
      (by omega) (by omega)
  all_goals
    rcases hrf : run.rFonts with _ | f <;>
      simp [set_ascii_hAnsi, clone_run_style, copy_rFonts, add_run, emptyRFonts, hrf,
        asciiSlot, hAnsiSlot, eastAsiaSlot, csSlot, hintSlot]

theorem sentence_split_three_parts_witness :
    ((⟨("abcdef").data, defaultCharStyle,
        some ⟨some (("SutonnyMJ").data), some (("SutonnyMJ").data), some (("SimSun").data),
          some (("Vrinda").data), some (("default").data), none, none⟩,
        false, false⟩ : DocxRun).inHyperlink = false ∧
     (⟨("abcdef").data, defaultCharStyle,
        some ⟨some (("SutonnyMJ").data), some (("SutonnyMJ").data), some (("SimSun").data),
          some (("Vrinda").data), some (("default").data), none, none⟩,
        false, false⟩ : DocxRun).fieldCode = false ∧
     ((if (2:Int) < 0 then (0:Int) else 2) <
      (if (((⟨("abcdef").data, defaultCharStyle,
        some ⟨some (("SutonnyMJ").data), some (("SutonnyMJ").data), some (("SimSun").data),
          some (("Vrinda").data), some (("default").data), none, none⟩,
        false, false⟩ : DocxRun).text.length : Int)) < 4
        then (((⟨("abcdef").data, defaultCharStyle,
        some ⟨some (("SutonnyMJ").data), some (("SutonnyMJ").data), some (("SimSun").data),
          some (("Vrinda").data), some (("default").data), none, none⟩,
        false, false⟩ : DocxRun).text.length : Int)) else 4))) ∧
    (let s := ((if (2:Int) < 0 then (0:Int) else 2)).toNat
     let e := (if (((⟨("abcdef").data, defaultCharStyle,
        some ⟨some (("SutonnyMJ").data), some (("SutonnyMJ").data), some (("SimSun").data),
          some (("Vrinda").data), some (("default").data), none, none⟩,
        false, false⟩ : DocxRun).text.length : Int)) < 4
        then (((⟨("abcdef").data, defaultCharStyle,
        some ⟨some (("SutonnyMJ").data), some (("SutonnyMJ").data), some (("SimSun").data),
          some (("Vrinda").data), some (("default").data), none, none⟩,
        false, false⟩ : DocxRun).text.length : Int)) else 4).toNat
     let before := (⟨("abcdef").data, defaultCharStyle,
        some ⟨some (("SutonnyMJ").data), some (("SutonnyMJ").data), some (("SimSun").data),
          some (("Vrinda").data), some (("default").data), none, none⟩,
        false, false⟩ : DocxRun).text.take s
     let target := ((⟨("abcdef").data, defaultCharStyle,
        some ⟨some (("SutonnyMJ").data), some (("SutonnyMJ").data), some (("SimSun").data),
          some (("Vrinda").data), some (("default").data), none, none⟩,
        false, false⟩ : DocxRun).text.drop s).take (e - s)
     let after := (⟨("abcdef").data, defaultCharStyle,
        some ⟨some (("SutonnyMJ").data), some (("SutonnyMJ").data), some (("SimSun").data),
          some (("Vrinda").data), some (("default").data), none, none⟩,
        false, false⟩ : DocxRun).text.drop e
     split_run_apply_tnr (⟨("abcdef").data, defaultCharStyle,
        some ⟨some (("SutonnyMJ").data), some (("SutonnyMJ").data), some (("SimSun").data),
          some (("Vrinda").data), some (("default").data), none, none⟩,
        false, false⟩ : DocxRun) 2 4 =
       ((if before = [] then []
         else [clone_run_style (⟨("abcdef").data, defaultCharStyle,
           some ⟨some (("SutonnyMJ").data), some (("SutonnyMJ").data), some (("SimSun").data),
             some (("Vrinda").data), some (("default").data), none, none⟩,
           false, false⟩ : DocxRun) (add_run before)]) ++
          set_ascii_hAnsi (clone_run_style (⟨("abcdef").data, defaultCharStyle,
            some ⟨some (("SutonnyMJ").data), some (("SutonnyMJ").data), some (("SimSun").data),
              some (("Vrinda").data), some (("default").data), none, none⟩,
            false, false⟩ : DocxRun) (add_run target)) (("Times New Roman").data) ::
          (if after = [] then []
           else [clone_run_style (⟨("abcdef").data, defaultCharStyle,
             some ⟨some (("SutonnyMJ").data), some (("SutonnyMJ").data), some (("SimSun").data),
               some (("Vrinda").data), some (("default").data), none, none⟩,
             false, false⟩ : DocxRun) (add_run after)]),
        { (⟨("abcdef").data, defaultCharStyle,
           some ⟨some (("SutonnyMJ").data), some (("SutonnyMJ").data), some (("SimSun").data),
             some (("Vrinda").data), some (("default").data), none, none⟩,
           false, false⟩ : DocxRun) with text := [] }) ∧
     before ++ target ++ after = (⟨("abcdef").data, defaultCharStyle,
        some ⟨some (("SutonnyMJ").data), some (("SutonnyMJ").data), some (("SimSun").data),
          some (("Vrinda").data), some (("default").data), none, none⟩,
        false, false⟩ : DocxRun).text ∧
     (clone_run_style (⟨("abcdef").data, defaultCharStyle,
        some ⟨some (("SutonnyMJ").data), some (("SutonnyMJ").data), some (("SimSun").data),
          some (("Vrinda").data), some (("default").data), none, none⟩,
        false, false⟩ : DocxRun) (add_run before)).rFonts = (⟨("abcdef").data, defaultCharStyle,
        some ⟨some (("SutonnyMJ").data), some (("SutonnyMJ").data), some (("SimSun").data),
          some (("Vrinda").data), some (("default").data), none, none⟩,
        false, false⟩ : DocxRun).rFonts ∧
     (clone_run_style (⟨("abcdef").data, defaultCharStyle,
        some ⟨some (("SutonnyMJ").data), some (("SutonnyMJ").data), some (("SimSun").data),
          some (("Vrinda").data), some (("default").data), none, none⟩,
        false, false⟩ : DocxRun) (add_run before)).style = (⟨("abcdef").data, defaultCharStyle,
        some ⟨some (("SutonnyMJ").data), some (("SutonnyMJ").data), some (("SimSun").data),
          some (("Vrinda").data), some (("default").data), none, none⟩,
        false, false⟩ : DocxRun).style ∧
     (clone_run_style (⟨("abcdef").data, defaultCharStyle,
        some ⟨some (("SutonnyMJ").data), some (("SutonnyMJ").data), some (("SimSun").data),
          some (("Vrinda").data), some (("default").data), none, none⟩,
        false, false⟩ : DocxRun) (add_run after)).rFonts = (⟨("abcdef").data, defaultCharStyle,
        some ⟨some (("SutonnyMJ").data), some (("SutonnyMJ").data), some (("SimSun").data),
          some (("Vrinda").data), some (("default").data), none, none⟩,
        false, false⟩ : DocxRun).rFonts ∧
     (clone_run_style (⟨("abcdef").data, defaultCharStyle,
        some ⟨some (("SutonnyMJ").data), some (("SutonnyMJ").data), some (("SimSun").data),
          some (("Vrinda").data), some (("default").data), none, none⟩,
        false, false⟩ : DocxRun) (add_run after)).style = (⟨("abcdef").data, defaultCharStyle,
        some ⟨some (("SutonnyMJ").data), some (("SutonnyMJ").data), some (("SimSun").data),
          some (("Vrinda").data), some (("default").data), none, none⟩,
        false, false⟩ : DocxRun).style ∧
     asciiSlot (set_ascii_hAnsi (clone_run_style (⟨("abcdef").data, defaultCharStyle,
        some ⟨some (("SutonnyMJ").data), some (("SutonnyMJ").data), some (("SimSun").data),
          some (("Vrinda").data), some (("default").data), none, none⟩,
        false, false⟩ : DocxRun) (add_run target)) (("Times New Roman").data)) =
       some (("Times New Roman").data) ∧
     hAnsiSlot (set_ascii_hAnsi (clone_run_style (⟨("abcdef").data, defaultCharStyle,
        some ⟨some (("SutonnyMJ").data), some (("SutonnyMJ").data), some (("SimSun").data),
          some (("Vrinda").data), some (("default").data), none, none⟩,
        false, false⟩ : DocxRun) (add_run target)) (("Times New Roman").data)) =
       some (("Times New Roman").data) ∧
     eastAsiaSlot (set_ascii_hAnsi (clone_run_style (⟨("abcdef").data, defaultCharStyle,
        some ⟨some (("SutonnyMJ").data), some (("SutonnyMJ").data), some (("SimSun").data),
          some (("Vrinda").data), some (("default").data), none, none⟩,
        false, false⟩ : DocxRun) (add_run target)) (("Times New Roman").data)) =
       eastAsiaSlot (⟨("abcdef").data, defaultCharStyle,
        some ⟨some (("SutonnyMJ").data), some (("SutonnyMJ").data), some (("SimSun").data),
          some (("Vrinda").data), some (("default").data), none, none⟩,
        false, false⟩ : DocxRun) ∧
     csSlot (set_ascii_hAnsi (clone_run_style (⟨("abcdef").data, defaultCharStyle,
        some ⟨some (("SutonnyMJ").data), some (("SutonnyMJ").data), some (("SimSun").data),
          some (("Vrinda").data), some (("default").data), none, none⟩,
        false, false⟩ : DocxRun) (add_run target)) (("Times New Roman").data)) =
       csSlot (⟨("abcdef").data, defaultCharStyle,
        some ⟨some (("SutonnyMJ").data), some (("SutonnyMJ").data), some (("SimSun").data),
          some (("Vrinda").data), some (("default").data), none, none⟩,
        false, false⟩ : DocxRun) ∧
     hintSlot (set_ascii_hAnsi (clone_run_style (⟨("abcdef").data, defaultCharStyle,
        some ⟨some (("SutonnyMJ").data), some (("SutonnyMJ").data), some (("SimSun").data),
          some (("Vrinda").data), some (("default").data), none, none⟩,
        false, false⟩ : DocxRun) (add_run target)) (("Times New Roman").data)) =
       hintSlot (⟨("abcdef").data, defaultCharStyle,
        some ⟨some (("SutonnyMJ").data), some (("SutonnyMJ").data), some (("SimSun").data),
          some (("Vrinda").data), some (("default").data), none, none⟩,
        false, false⟩ : DocxRun) ∧
     (set_ascii_hAnsi (clone_run_style (⟨("abcdef").data, defaultCharStyle,
        some ⟨some (("SutonnyMJ").data), some (("SutonnyMJ").data), some (("SimSun").data),
          some (("Vrinda").data), some (("default").data), none, none⟩,
        false, false⟩ : DocxRun) (add_run target)) (("Times New Roman").data)).style =
       (⟨("abcdef").data, defaultCharStyle,
        some ⟨some (("SutonnyMJ").data), some (("SutonnyMJ").data), some (("SimSun").data),
          some (("Vrinda").data), some (("default").data), none, none⟩,
        false, false⟩ : DocxRun).style) :=
  ⟨⟨rfl, rfl, by decide⟩,
   sentence_split_three_parts _ 2 4 rfl rfl (by decide)⟩

theorem flatText_cons (r : DocxRun) (rs : List DocxRun) :
    flatText (r :: rs) = r.text ++ flatText rs := by
  simp [flatText]

theorem flatText_append (l1 l2 : List DocxRun) :
    flatText (l1 ++ l2) = flatText l1 ++ flatText l2 := by
  simp [flatText]

theorem set_ascii_text_eq (r : DocxRun) (f : Str) :
    (set_ascii_hAnsi r f).text = r.text := by
  simp [set_ascii_hAnsi]

/-- split_run_apply_tnr preserves the contribution of the run to the flattened
paragraph text: the (possibly cleared) original followed by the inserted
runs carries exactly the original text. -/
theorem split_run_concat (r : DocxRun) (ls le : Int) :
    (split_run_apply_tnr r ls le).2.text ++
      ((split_run_apply_tnr r ls le).1.map (fun x => x.text)).flatten = r.text := by
  unfold split_run_apply_tnr
  by_cases hst : (r.inHyperlink || r.fieldCode) = true
  · simp [hst]
  · rw [if_neg hst]
    by_cases hle : ((if (r.text.length : Int) < le then (r.text.length : Int) else le) ≤
        (if ls < 0 then 0 else ls))
    · simp [hle]
    · rw [if_neg hle]
      have key : ∀ (b t a : Str),
          (((if b = [] then [] else [clone_run_style r (add_run b)]) ++
            set_ascii_hAnsi (clone_run_style r (add_run t)) (("Times New Roman").data) ::
            (if a = [] then [] else [clone_run_style r (add_run a)])).map
              (fun x => x.text)).flatten = b ++ t ++ a := by
        intro b t a
        by_cases hb : b = [] <;> by_cases ha : a = [] <;>
          simp [hb, ha, clone_text_eq, set_ascii_text_eq]
      simp only []
      rw [key]
      exact slice_concat r.text
        ((if ls < 0 then (0:Int) else ls)).toNat
        ((if (r.text.length : Int) < le then (r.text.length : Int) else le)).toNat
        (by omega) (by omega)

theorem leadsList_length (n : Str) : ∀ (l : Str), leadsList n l = true → n.length ≤ l.length := by
  induction n with
  | nil => intro l _; simp
  | cons a as ih =>
    intro l h
    cases l with
    | nil => simp [leadsList] at h
    | cons b bs =>
      simp only [leadsList, Bool.and_eq_true] at h
      have := ih bs h.2
      simp only [List.length_cons]
      omega

theorem firstMatchPos_bound (needle : Str) : ∀ (h : Str) (i : Nat),
    firstMatchPos needle h = some i → i + needle.length ≤ h.length := by
  intro h
  induction h with
  | nil =>
    intro i hi
    unfold firstMatchPos at hi
    by_cases hl : leadsList needle [] = true
    · rw [if_pos hl] at hi
      cases hi
      have := leadsList_length needle [] hl
      simpa using this
    · rw [if_neg hl] at hi
      cases hi
  | cons c rest ih =>
    intro i hi
    unfold firstMatchPos at hi
    by_cases hl : leadsList needle (c :: rest) = true
    · rw [if_pos hl] at hi
      cases hi
      have := leadsList_length needle (c :: rest) hl
      omega
    · rw [if_neg hl] at hi
      rcases hm : firstMatchPos needle rest with _ | j
      · rw [hm] at hi; cases hi
      · rw [hm] at hi
        simp only [Option.map_some'] at hi
        cases hi
        have := ih j hm
        simp only [List.length_cons]
        omega

theorem findFrom_spec (hay needle : Str) (start g : Nat)
    (hst : start ≤ hay.length) (h : findFrom hay needle start = some g) :
    start ≤ g ∧ g + needle.length ≤ hay.length := by
  unfold findFrom at h
  rcases hm : firstMatchPos needle (hay.drop start) with _ | i
  · rw [hm] at h; cases h
  · rw [hm] at h
    simp only [Option.map_some'] at h
    cases h
    have hb := firstMatchPos_bound needle (hay.drop start) i hm
    have hd : (hay.drop start).length = hay.length - start := by simp
    constructor
    · omega
    · omega

/-- The per-match rewriting pass preserves the flattened paragraph text. -/
theorem applyMatchGo_flat (gs ge : Nat) : ∀ (runs : List DocxRun) (cursor : Nat),
    flatText (applyMatchGo gs ge runs cursor) = flatText runs := by
  intro runs
  induction runs with
  | nil => intro c; rfl
  | cons r rs ih =>
    intro c
    unfold applyMatchGo
    by_cases hov : max gs c < min ge (c + r.text.length)
    · rw [if_pos hov]
      simp only []
      rw [flatText_cons, flatText_append, ih]
      congr 1
      rw [flatText_cons]
      have hc := split_run_concat r (((gs ⊔ c : Nat) : Int) - (c : Int))
        (((ge ⊓ (c + r.text.length) : Nat) : Int) - (c : Int))
      simpa [flatText] using hc
    · rw [if_neg hov, flatText_cons, flatText_cons, ih]

theorem applyMatch_flat (para : List DocxRun) (gs ge : Nat) :
    flatText (applyMatch para gs ge) = flatText para :=
  applyMatchGo_flat gs ge para 0

/-- Fuel sufficiency for the rescan loop: as long as the remaining fuel
exceeds the distance from the resume position to the end of the flattened
text, the loop reaches a normal break, the flattened length is preserved,
and each conversion advances the resume position by at least the sentence
length. -/
theorem sentLoop_total (s : Str) (hs : ¬(s = [])) : ∀ (fuel : Nat) (para : List DocxRun) (sf c : Nat),
    flatLen para - sf < fuel →
    ∃ p2 c2, sentLoop fuel para s sf c = some (p2, c2) ∧
      flatLen p2 = flatLen para ∧
      c2 * s.length ≤ c * s.length + (flatLen para - sf) := by
  intro fuel
  induction fuel with
  | zero => intro para sf c hlt; omega
  | succ fuel ih =>
    intro para sf c hlt
    by_cases hfull : flatText para = []
    · refine ⟨para, c, ?_, rfl, by omega⟩
      unfold sentLoop
      simp [hfull]
    · by_cases hsf : (flatText para).length ≤ sf
      · refine ⟨para, c, ?_, rfl, by omega⟩
        unfold sentLoop
        simp [hfull, hsf]
      · rcases hfind : findFrom (flatText para) s sf with _ | g
        · refine ⟨para, c, ?_, rfl, by omega⟩
          unfold sentLoop
          simp [hfull, hsf, hfind]
        · have hspec := findFrom_spec (flatText para) s sf g (by omega) hfind
          have hslen : 1 ≤ s.length := by
            cases s with
            | nil => exact absurd rfl hs
            | cons a as => simp
          have hflat : flatLen (applyMatch para g (g + s.length)) = flatLen para := by
            simp [flatLen, applyMatch_flat]
          have hlen : flatLen para = (flatText para).length := rfl
          have hrec : flatLen (applyMatch para g (g + s.length)) - (g + s.length) < fuel := by
            rw [hflat]
            omega
          obtain ⟨p2, c2, heq, hf2, hb2⟩ :=
            ih (applyMatch para g (g + s.length)) (g + s.length) (c + 1) hrec
          refine ⟨p2, c2, ?_, ?_, ?_⟩
          · unfold sentLoop
            simp only [hfind]
            rw [if_neg hfull, if_neg hsf]
            exact heq
          · rw [hf2, hflat]
          · rw [hflat] at hb2
            have h2 : (c + 1) * s.length = c * s.length + s.length := by ring
            rw [h2] at hb2
            generalize c * s.length = A at hb2 ⊢
            generalize c2 * s.length = B at hb2 ⊢
            omega

/-- Claim C10.  The rescan loop of apply_sentence_to_paragraph terminates
for every paragraph and non-empty sentence: the structural fuel version
reaches a normal break within flattened-length-plus-one iterations (so the
while loop of the source terminates), splitting preserves the
flattened text length, and since every conversion advances the resume
position by at least the sentence length, the number of converted matches
is bounded by the flattened length divided by the sentence length. -/
theorem sentence_search_terminates (para : List DocxRun) (s : Str) (hs : ¬(s = [])) :
    sentLoop (flatLen para + 1) para s 0 0 = some (apply_sentence_to_paragraph para s) ∧
    (apply_sentence_to_paragraph para s).2 * s.length ≤ flatLen para ∧
    flatLen (apply_sentence_to_paragraph para s).1 = flatLen para := by
  obtain ⟨p2, c2, heq, hf, hb⟩ := sentLoop_total s hs (flatLen para + 1) para 0 0 (by omega)
  have happ : apply_sentence_to_paragraph para s = (p2, c2) := by
    unfold apply_sentence_to_paragraph
    rw [if_neg hs, heq]
    rfl
  rw [happ, heq]
  refine ⟨rfl, ?_, hf⟩
  simpa using hb

theorem sentence_search_terminates_witness :
    (¬((("Hi.").data) = ([] : Str))) ∧
    (sentLoop (flatLen [(⟨("Hi. Hi.").data, defaultCharStyle, none, false, false⟩ : DocxRun)] + 1)
        [(⟨("Hi. Hi.").data, defaultCharStyle, none, false, false⟩ : DocxRun)] (("Hi.").data) 0 0 =
      some (apply_sentence_to_paragraph
        [(⟨("Hi. Hi.").data, defaultCharStyle, none, false, false⟩ : DocxRun)] (("Hi.").data)) ∧
     (apply_sentence_to_paragraph
        [(⟨("Hi. Hi.").data, defaultCharStyle, none, false, false⟩ : DocxRun)]
        (("Hi.").data)).2 * (("Hi.").data).length ≤
       flatLen [(⟨("Hi. Hi.").data, defaultCharStyle, none, false, false⟩ : DocxRun)] ∧
     flatLen (apply_sentence_to_paragraph
        [(⟨("Hi. Hi.").data, defaultCharStyle, none, false, false⟩ : DocxRun)]
        (("Hi.").data)).1 =
       flatLen [(⟨("Hi. Hi.").data, defaultCharStyle, none, false, false⟩ : DocxRun)]) :=
  ⟨by decide,
   sentence_search_terminates
     [(⟨("Hi. Hi.").data, defaultCharStyle, none, false, false⟩ : DocxRun)]
     (("Hi.").data) (by decide)⟩

theorem lastIdxOf_none (ch : Char) : ∀ (l : Str), lastIdxOf ch l = none → ¬(ch ∈ l) := by
  intro l
  induction l with
  | nil => intro _ h; simp at h
  | cons c t ih =>
    intro h
    unfold lastIdxOf at h
    rcases hm : lastIdxOf ch t with _ | i
    · rw [hm] at h
      by_cases hc : c = ch
      · rw [if_pos hc] at h; cases h
      · intro hmem
        rcases List.mem_cons.mp hmem with he | ht
        · exact hc he.symm
        · exact ih hm ht
    · rw [hm] at h; cases h

theorem lastIdxOf_decomp (ch : Char) : ∀ (l : Str) (i : Nat), lastIdxOf ch l = some i →
    ∃ u v, l = u ++ ch :: v ∧ u.length = i ∧ ¬(ch ∈ v) := by
  intro l
  induction l with
  | nil => intro i h; simp [lastIdxOf] at h
  | cons c t ih =>
    intro i h
    unfold lastIdxOf at h
    rcases hm : lastIdxOf ch t with _ | j
    · rw [hm] at h
      by_cases hc : c = ch
      · rw [if_pos hc] at h
        cases h
        exact ⟨[], t, by rw [hc]; rfl, rfl, lastIdxOf_none ch t hm⟩
      · rw [if_neg hc] at h; cases h
    · rw [hm] at h
      cases h
      obtain ⟨u, v, he, hl, hnv⟩ := ih j hm
      exact ⟨c :: u, v, by rw [he]; rfl, by simp [hl], hnv⟩

/-- splitext is a partition of the path. -/
theorem splitext_concat (p : Str) : (splitext p).1 ++ (splitext p).2 = p := by
  unfold splitext
  rcases hd : lastIdxOf '.' p with _ | d
  · simp
  · rcases hs : lastIdxOf '/' p with _ | s <;>
      simp only [] <;>
      split <;>
      try split
    all_goals simp [List.take_append_drop]

/-- The extension returned by splitext contains no path separator. -/
theorem splitext_noslash (p : Str) : ¬('/' ∈ (splitext p).2) := by
  unfold splitext
  rcases hd : lastIdxOf '.' p with _ | d
  · simp
  · rcases hs : lastIdxOf '/' p with _ | s
    · have hnp := lastIdxOf_none '/' p hs
      simp only []
      split
      · split
        · intro hm
          exact hnp (List.drop_subset _ _ hm)
        · simp
      · simp
    · simp only []
      split
      · rename_i hsep
        split
        · obtain ⟨u, v, he, hl, hnv⟩ := lastIdxOf_decomp '/' p s hs
          have hsd : s < d := by
            have := of_decide_eq_true hsep
            exact this
          intro hm
          have hdrop : p.drop d = v.drop (d - s - 1) := by
            have hlen : (u ++ ['/']).length = s + 1 := by simp [hl]
            have h2 : p.drop d = ((u ++ ['/']) ++ v).drop ((u ++ ['/']).length + (d - s - 1)) := by
              rw [he, show u ++ '/' :: v = (u ++ ['/']) ++ v by simp]
              congr 1
              rw [hlen]
              omega
            rw [h2, List.drop_append]
          rw [hdrop] at hm
          exact hnv (List.drop_subset _ _ hm)
        · simp
      · simp

theorem splitComps_ne_nil : ∀ (p : Str), ¬(splitComps p = []) := by
  intro p
  induction p with
  | nil => simp [splitComps]
  | cons c rest ih =>
    unfold splitComps
    by_cases hc : c = '/'
    · simp [hc]
    · rw [if_neg hc]
      rcases h : splitComps rest with _ | ⟨h1, t⟩ <;> simp

theorem splitComps_noslash (x : Str) (hx : ¬('/' ∈ x)) : splitComps x = [x] := by
  induction x with
  | nil => rfl
  | cons c rest ih =>
    have hc : ¬(c = '/') := by
      intro h
      exact hx (by rw [h]; exact List.mem_cons_self _ _)
    have hrest : ¬('/' ∈ rest) := fun h => hx (List.mem_cons_of_mem _ h)
    unfold splitComps
    rw [if_neg hc, ih hrest]

theorem splitComps_slash (rest : Str) : splitComps ('/' :: rest) = [] :: splitComps rest := by
  simp only [splitComps]
  rw [if_pos trivial]

theorem splitComps_other (c : Char) (rest : Str) (hc : ¬(c = '/')) :
    splitComps (c :: rest) =
      match splitComps rest with
      | [] => [[c]]
      | h :: t => (c :: h) :: t := by
  simp only [splitComps]
  rw [if_neg hc]

theorem splitComps_append (x : Str) (hx : ¬('/' ∈ x)) :
    ∀ (A : Str), splitComps (A ++ x) = modLastApp x (splitComps A) := by
  intro A
  induction A with
  | nil =>
    rw [List.nil_append, splitComps_noslash x hx]
    rfl
  | cons a A' ih =>
    by_cases ha : a = '/'
    · subst ha
      rw [show ('/' :: A') ++ x = '/' :: (A' ++ x) from rfl,
        splitComps_slash (A' ++ x), splitComps_slash A', ih]
      rcases hSA : splitComps A' with _ | ⟨h1, t⟩
      · exact absurd hSA (splitComps_ne_nil A')
      · rfl
    · rw [show (a :: A') ++ x = a :: (A' ++ x) from rfl,
        splitComps_other a (A' ++ x) ha, splitComps_other a A' ha, ih]
      rcases hSA : splitComps A' with _ | ⟨h1, t⟩
      · exact absurd hSA (splitComps_ne_nil A')
      · cases t with
        | nil => rfl
        | cons t1 ts => rfl

theorem modLastApp_append (x : Str) : ∀ (I : List Str) (L : Str),
    modLastApp x (I ++ [L]) = I ++ [L ++ x] := by
  intro I
  induction I with
  | nil => intro L; rfl
  | cons a I' ih =>
    intro L
    have h1 : modLastApp x (a :: (I' ++ [L])) = a :: modLastApp x (I' ++ [L]) := by
      rcases hI : I' ++ [L] with _ | ⟨h, t⟩
      · exact absurd hI (by simp)
      · rfl
    rw [show (a :: I') ++ [L] = a :: (I' ++ [L]) from rfl, h1, ih]
    rfl

theorem take_one_ne_slash (z : Str) (hz : ¬('/' ∈ z)) : ¬(z.take 1 = ['/']) := by
  cases z with
  | nil => simp
  | cons c t =>
    simp only [List.take_succ_cons, List.take_zero]
    intro h
    have hc : c = '/' := by
      injection h with h1 _
    exact hz (hc ▸ List.mem_cons_self c t)

/-- The leading-slash count of normpath depends only on the path up to its
slash-free tail. -/
theorem initialSlashes_eq (x y : Str) (hx : ¬('/' ∈ x)) (hy : ¬('/' ∈ y)) :
    ∀ (A : Str), initialSlashes (A ++ x) = initialSlashes (A ++ y) := by
  have hx1 := take_one_ne_slash x hx
  have hy1 := take_one_ne_slash y hy
  intro A
  rcases A with _ | ⟨a, _ | ⟨b, _ | ⟨c, A'⟩⟩⟩
  · simp only [List.nil_append]
    unfold initialSlashes
    rw [if_neg hx1, if_neg hy1]
  · simp only [List.cons_append, List.nil_append]
    unfold initialSlashes
    simp only [List.take_succ_cons, List.take_zero, List.take_nil]
    by_cases ha : a = '/'
    · subst ha
      have c2x : ¬(('/' : Char) :: x.take 1 = ['/', '/']) := by
        intro h
        injection h with _ h2
        exact hx1 h2
      have c2y : ¬(('/' : Char) :: y.take 1 = ['/', '/']) := by
        intro h
        injection h with _ h2
        exact hy1 h2
      simp [c2x, c2y]
    · simp [ha]
  · simp only [List.cons_append, List.nil_append]
    unfold initialSlashes
    simp only [List.take_succ_cons, List.take_zero, List.take_nil]
    have c3x : ¬((a :: b :: x.take 1 : List Char) = ['/', '/', '/']) := by
      intro h
      injection h with _ h2
      injection h2 with _ h3
      exact hx1 h3
    have c3y : ¬((a :: b :: y.take 1 : List Char) = ['/', '/', '/']) := by
      intro h
      injection h with _ h2
      injection h2 with _ h3
      exact hy1 h3
    simp [c3x, c3y]
  · simp only [List.cons_append]
    unfold initialSlashes
    simp only [List.take_succ_cons, List.take_zero]

theorem joinSlash_append_single (T : List Str) (z : Str) :
    joinSlash (T ++ [z]) = if T = [] then z else joinSlash T ++ '/' :: z := by
  induction T with
  | nil => rfl
  | cons t ts ih =>
    cases ts with
    | nil => rfl
    | cons t2 ts2 =>
      have h1 : joinSlash ((t :: t2 :: ts2) ++ [z]) =
          t ++ '/' :: joinSlash ((t2 :: ts2) ++ [z]) := rfl
      rw [h1, ih]
      rw [if_neg (show ¬(t2 :: ts2 = []) by simp),
        if_neg (show ¬(t :: t2 :: ts2 = []) by simp)]
      rw [show joinSlash (t :: t2 :: ts2) = t ++ '/' :: joinSlash (t2 :: ts2) from rfl,
        List.append_assoc]
      rfl

theorem joinSlash_dropLast_le (T : List Str) :
    (joinSlash T.dropLast).length ≤ (joinSlash T).length := by
  by_cases hT : T = []
  · subst hT
    simp
  · conv_rhs => rw [← List.dropLast_append_getLast hT]
    rw [joinSlash_append_single]
    split
    · rename_i h
      rw [h]
      simp [joinSlash]
    · simp

/-- A component of length at least three is neither empty, a dot nor a
dotdot, so the normpath stack step appends it. -/
theorem ncStep_push (n : Nat) (T : List Str) (z : Str) (h3 : 3 ≤ z.length) :
    ncStep n T z = T ++ [z] := by
  unfold ncStep
  have h1 : ¬(z = [] ∨ z = (".").data) := by
    rintro (h | h) <;> (rw [h] at h3; exact absurd h3 (by decide))
  have h2 : ¬(z = ("..").data) := by
    intro h
    rw [h] at h3
    exact absurd h3 (by decide)
  rw [if_neg h1, if_pos (Or.inl h2)]

theorem renderLen_ne_small (n : Nat) (T S : List Str) (zF : Str)
    (h7 : 7 ≤ zF.length)
    (hS : (joinSlash S).length ≤ (joinSlash T).length) :
    ¬((if List.replicate n '/' ++ joinSlash S = [] then (".").data
       else List.replicate n '/' ++ joinSlash S) =
      List.replicate n '/' ++ joinSlash (T ++ [zF])) := by
  have hjF : (joinSlash (T ++ [zF])).length =
      (joinSlash T).length + (if T = [] then 0 else 1) + zF.length := by
    rw [joinSlash_append_single]
    split
    · rename_i h
      rw [h]
      simp [joinSlash]
    · simp
      omega
  intro heq
  by_cases hraw : List.replicate n '/' ++ joinSlash S = []
  · rw [if_pos hraw] at heq
    have h1 := congrArg List.length heq
    have hdot : ((".").data).length = 1 := rfl
    rw [hdot] at h1
    simp only [List.length_append, List.length_replicate, hjF] at h1
    split at h1 <;> omega
  · rw [if_neg hraw] at heq
    have h1 := congrArg List.length heq
    simp only [List.length_append, List.length_replicate, hjF] at h1
    split at h1 <;> omega

theorem renderLen_ne_push (n : Nat) (T : List Str) (zO zF : Str)
    (hlt : zO.length < zF.length) (hzO : ¬(zO = [])) :
    ¬((if List.replicate n '/' ++ joinSlash (T ++ [zO]) = [] then (".").data
       else List.replicate n '/' ++ joinSlash (T ++ [zO])) =
      List.replicate n '/' ++ joinSlash (T ++ [zF])) := by
  have hz1 : 0 < zO.length := List.length_pos.mpr hzO
  have hjO : (joinSlash (T ++ [zO])).length =
      (joinSlash T).length + (if T = [] then 0 else 1) + zO.length := by
    rw [joinSlash_append_single]
    split
    · rename_i h
      rw [h]
      simp [joinSlash]
    · simp
      omega
  have hjF : (joinSlash (T ++ [zF])).length =
      (joinSlash T).length + (if T = [] then 0 else 1) + zF.length := by
    rw [joinSlash_append_single]
    split
    · rename_i h
      rw [h]
      simp [joinSlash]
    · simp
      omega
  have hrawO : ¬(List.replicate n '/' ++ joinSlash (T ++ [zO]) = []) := by
    intro h
    have h1 := congrArg List.length h
    simp only [List.length_append, List.length_replicate, List.length_nil, hjO] at h1
    split at h1 <;> omega
  intro heq
  rw [if_neg hrawO] at heq
  have h1 := congrArg List.length heq
  simp only [List.length_append, List.length_replicate, hjO, hjF] at h1
  split at h1 <;> omega

/-- The rendered normpath outputs of the original path and of the forced
output path always differ: the forced path ends in a pushed component that
is strictly longer than whatever the last component of the original path does
to the stack. -/
theorem renderLen_ne (n : Nat) (T : List Str) (zO zF : Str)
    (h7 : 7 ≤ zF.length) (hlt : zO.length < zF.length) :
    ¬((if List.replicate n '/' ++ joinSlash (ncStep n T zO) = [] then (".").data
       else List.replicate n '/' ++ joinSlash (ncStep n T zO)) =
      (if List.replicate n '/' ++ joinSlash (T ++ [zF]) = [] then (".").data
       else List.replicate n '/' ++ joinSlash (T ++ [zF]))) := by
  have hjF : (joinSlash (T ++ [zF])).length =
      (joinSlash T).length + (if T = [] then 0 else 1) + zF.length := by
    rw [joinSlash_append_single]
    split
    · rename_i h
      rw [h]
      simp [joinSlash]
    · simp
      omega
  have hrawF : ¬(List.replicate n '/' ++ joinSlash (T ++ [zF]) = []) := by
    intro h
    have h1 := congrArg List.length h
    simp only [List.length_append, List.length_replicate, List.length_nil, hjF] at h1
    split at h1 <;> omega
  rw [if_neg hrawF]
  by_cases c1 : zO = [] ∨ zO = (".").data
  · rw [show ncStep n T zO = T from by unfold ncStep; rw [if_pos c1]]
    exact renderLen_ne_small n T T zF h7 le_rfl
  · by_cases c2 : ¬(zO = ("..").data) ∨ (n = 0 ∧ T = []) ∨ T.getLast? = some (("..").data)
    · rw [show ncStep n T zO = T ++ [zO] from by unfold ncStep; rw [if_neg c1, if_pos c2]]
      exact renderLen_ne_push n T zO zF hlt (fun h => c1 (Or.inl h))
    · by_cases c3 : T = []
      · rw [show ncStep n T zO = T from by unfold ncStep; rw [if_neg c1, if_neg c2, if_pos c3]]
        exact renderLen_ne_small n T T zF h7 le_rfl
      · rw [show ncStep n T zO = T.dropLast from by
          unfold ncStep; rw [if_neg c1, if_neg c2, if_neg c3]]
        exact renderLen_ne_small n T T.dropLast zF h7 (joinSlash_dropLast_le T)

/-- The output path forced by the overwrite guard (stem, the _fixed
marker, then the extension or the default one) never resolves, via
abspath, to the same string as the input path: the last path component of
the forced path strictly grows by the marker, while normalization treats
both paths identically up to that last component. -/
theorem abspath_forced_ne (cwd b E1 : Str) (hE1 : ¬('/' ∈ E1)) :
    ¬(abspath cwd (b ++ (("_fixed").data ++ (if E1 = [] then (".docx").data else E1))) =
      abspath cwd (b ++ E1)) := by
  set E2 : Str := if E1 = [] then (".docx").data else E1 with hE2def
  have hW6 : (("_fixed").data).length = 6 := rfl
  have hE2s : ¬('/' ∈ E2) := by
    rw [hE2def]
    split
    · decide
    · exact hE1
  have hE1E2 : E1.length < 6 + E2.length := by
    rw [hE2def]
    split
    · rename_i h
      rw [h]
      decide
    · omega
  have hE2pos : 1 ≤ E2.length := by
    rw [hE2def]
    split
    · decide
    · rename_i h
      have := List.length_pos.mpr h
      omega
  have hWE2 : ¬('/' ∈ (("_fixed").data ++ E2)) := by
    intro hm
    rcases List.mem_append.mp hm with h | h
    · revert h
      decide
    · exact hE2s h
  have hA : ∃ A : Str,
      joinPath cwd (b ++ (("_fixed").data ++ E2)) = A ++ (("_fixed").data ++ E2) ∧
      joinPath cwd (b ++ E1) = A ++ E1 := by
    unfold joinPath isAbs
    rcases b with _ | ⟨c, b'⟩
    · simp only [List.nil_append]
      rw [if_neg (show ¬((decide ((("_fixed").data ++ E2).take 1 = ['/'])) = true) by
          simp [take_one_ne_slash _ hWE2]),
        if_neg (show ¬((decide (E1.take 1 = ['/'])) = true) by
          simp [take_one_ne_slash _ hE1])]
      by_cases hc : cwd = [] ∨ cwd.getLast? = some '/'
      · rw [if_pos hc, if_pos hc]
        exact ⟨cwd, rfl, rfl⟩
      · rw [if_neg hc, if_neg hc]
        exact ⟨cwd ++ ['/'], by simp, by simp⟩
    · by_cases hsl : c = '/'
      · subst hsl
        rw [if_pos (show (decide (((('/' :: b') ++ (("_fixed").data ++ E2)).take 1) = ['/'])) = true
            from by simp),
          if_pos (show (decide (((('/' :: b') ++ E1).take 1) = ['/'])) = true from by simp)]
        exact ⟨'/' :: b', rfl, rfl⟩
      · rw [if_neg (show ¬((decide ((((c :: b') ++ (("_fixed").data ++ E2)).take 1) = ['/'])) = true)
            from by simp [hsl]),
          if_neg (show ¬((decide ((((c :: b') ++ E1).take 1) = ['/'])) = true) from by simp [hsl])]
        by_cases hc : cwd = [] ∨ cwd.getLast? = some '/'
        · rw [if_pos hc, if_pos hc]
          exact ⟨cwd ++ (c :: b'), by simp, by simp⟩
        · rw [if_neg hc, if_neg hc]
          exact ⟨(cwd ++ ['/']) ++ (c :: b'), by simp, by simp⟩
  obtain ⟨A, hAF, hAO⟩ := hA
  unfold abspath
  rw [hAF, hAO]
  by_cases hnil : A ++ E1 = []
  · have hAe : A = [] := List.append_eq_nil.mp hnil |>.1
    have hE1e : E1 = [] := List.append_eq_nil.mp hnil |>.2
    rw [hAe, hE1e]
    simp only [List.nil_append, List.append_nil]
    have hne : ¬((("_fixed").data ++ E2) = []) := by
      intro h
      have := List.append_eq_nil.mp h |>.1
      revert this
      decide
    unfold normpath
    rw [if_neg hne, if_pos rfl]
    simp only []
    have hini : initialSlashes (("_fixed").data ++ E2) = 0 := by
      unfold initialSlashes
      rw [if_neg (take_one_ne_slash _ hWE2)]
    rw [hini, splitComps_noslash _ hWE2]
    simp only [List.foldl_cons, List.foldl_nil]
    rw [ncStep_push 0 [] _ (by simp only [List.length_append, hW6]; omega)]
    simp only [List.nil_append, List.replicate_zero]
    rw [show joinSlash [(("_fixed").data ++ E2)] = ("_fixed").data ++ E2 from rfl]
    rw [if_neg hne]
    intro h
    have h1 := congrArg List.length h
    have hdot : ((".").data).length = 1 := rfl
    rw [hdot] at h1
    simp only [List.length_append, hW6] at h1
    omega
  · have hnilF : ¬(A ++ (("_fixed").data ++ E2) = []) := by
      intro h
      have h2 := List.append_eq_nil.mp h |>.2
      have h3 := List.append_eq_nil.mp h2 |>.1
      revert h3
      decide
    unfold normpath
    rw [if_neg hnilF, if_neg hnil]
    simp only []
    have hini : initialSlashes (A ++ (("_fixed").data ++ E2)) = initialSlashes (A ++ E1) :=
      initialSlashes_eq _ _ hWE2 hE1 A
    have hSAne := splitComps_ne_nil A
    have hdec : splitComps A = (splitComps A).dropLast ++ [(splitComps A).getLast hSAne] :=
      (List.dropLast_append_getLast hSAne).symm
    have hcompsO : splitComps (A ++ E1) =
        (splitComps A).dropLast ++ [(splitComps A).getLast hSAne ++ E1] := by
      rw [splitComps_append E1 hE1 A]
      conv_lhs => rw [hdec]
      rw [modLastApp_append]
    have hcompsF : splitComps (A ++ (("_fixed").data ++ E2)) =
        (splitComps A).dropLast ++
          [(splitComps A).getLast hSAne ++ (("_fixed").data ++ E2)] := by
      rw [splitComps_append _ hWE2 A]
      conv_lhs => rw [hdec]
      rw [modLastApp_append]
    rw [hcompsO, hcompsF, hini]
    rw [List.foldl_append, List.foldl_append]
    simp only [List.foldl_cons, List.foldl_nil]
    rw [ncStep_push _ _ ((splitComps A).getLast hSAne ++ (("_fixed").data ++ E2))
      (by simp only [List.length_append, hW6]; omega)]
    intro h
    exact renderLen_ne (initialSlashes (A ++ E1))
      (List.foldl (ncStep (initialSlashes (A ++ E1))) [] (splitComps A).dropLast)
      ((splitComps A).getLast hSAne ++ E1)
      ((splitComps A).getLast hSAne ++ (("_fixed").data ++ E2))
      (by simp only [List.length_append, hW6]; omega)
      (by simp only [List.length_append, hW6]; omega)
      h.symm

/-- Claim C8, counterexample.  For the extensionless input path doc with
no output option, the written path is doc_fixed.docx: the code appends the
default .docx extension, not the (empty) extension of the input, so the claimed
default of stem plus _fixed plus the extension of the input (doc_fixed) is not
what is produced. -/
theorem default_output_extension_cex :
    convert_docx (fun _ => (0:ℚ)) true (("doc").data) none 3 false (("/h").data) [] =
      Except.ok (some (("doc_fixed.docx").data), []) ∧
    (splitext (("doc").data)).2 = [] ∧
    ¬((("doc_fixed.docx").data) =
      (splitext (("doc").data)).1 ++ (("_fixed").data) ++ (splitext (("doc").data)).2) := by
  refine ⟨by decide, by decide, by decide⟩

/-- Claim C8, amended: neither convert_docx (non-dry-run) nor
apply_sentences_docx ever saves to a path whose abspath equals the input
abspath of the input path; with no output option the written path is the input
stem followed by _fixed and the extension of the input, or .docx when the input
has no extension; and when the given output path resolves to the input
path the _fixed-suffixed name is forced. -/
theorem never_overwrite_input (z : Str → ℚ) (inPath cwd : Str) (outPath : Option Str)
    (th : ℚ) (doc doc2 : List (List DocxRun)) (w ws : Str)
    (ds : List (List DocxRun)) (cnt : Nat) (sentences : List Str)
    (hconv : convert_docx z true inPath outPath th false cwd doc = Except.ok (some w, doc2))
    (hsent : apply_sentences_docx true inPath outPath cwd doc sentences = Except.ok (ws, ds, cnt)) :
    ¬(abspath cwd w = abspath cwd inPath) ∧
    ¬(abspath cwd ws = abspath cwd inPath) ∧
    (outPath = none →
      w = (splitext inPath).1 ++ (("_fixed").data) ++
          (if (splitext inPath).2 = [] then ((".docx").data) else (splitext inPath).2) ∧
      ws = (splitext inPath).1 ++ (("_fixed").data) ++
          (if (splitext inPath).2 = [] then ((".docx").data) else (splitext inPath).2)) ∧
    (∀ o, outPath = some o → abspath cwd o = abspath cwd inPath →
      w = (splitext inPath).1 ++ (("_fixed").data) ++
          (if (splitext inPath).2 = [] then ((".docx").data) else (splitext inPath).2) ∧
      ws = (splitext inPath).1 ++ (("_fixed").data) ++
          (if (splitext inPath).2 = [] then ((".docx").data) else (splitext inPath).2)) := by
  have hkey : ¬(abspath cwd ((splitext inPath).1 ++ (("_fixed").data) ++
      (if (splitext inPath).2 = [] then ((".docx").data) else (splitext inPath).2)) =
      abspath cwd inPath) := by
    have h1 := abspath_forced_ne cwd (splitext inPath).1 (splitext inPath).2
      (splitext_noslash inPath)
    rw [splitext_concat inPath, ← List.append_assoc] at h1
    exact h1
  have hw : w = (if abspath cwd (outPath.getD ((splitext inPath).1 ++ (("_fixed").data) ++
        (if (splitext inPath).2 = [] then ((".docx").data) else (splitext inPath).2))) =
        abspath cwd inPath
      then (splitext inPath).1 ++ (("_fixed").data) ++
        (if (splitext inPath).2 = [] then ((".docx").data) else (splitext inPath).2)
      else outPath.getD ((splitext inPath).1 ++ (("_fixed").data) ++
        (if (splitext inPath).2 = [] then ((".docx").data) else (splitext inPath).2))) := by
    simp only [convert_docx, Bool.not_true, Bool.false_eq_true, if_false,
      Except.ok.injEq, Prod.mk.injEq, Option.some.injEq] at hconv
    exact hconv.1.symm
  have hws : ws = (if abspath cwd (outPath.getD ((splitext inPath).1 ++ (("_fixed").data) ++
        (if (splitext inPath).2 = [] then ((".docx").data) else (splitext inPath).2))) =
        abspath cwd inPath
      then (splitext inPath).1 ++ (("_fixed").data) ++
        (if (splitext inPath).2 = [] then ((".docx").data) else (splitext inPath).2)
      else outPath.getD ((splitext inPath).1 ++ (("_fixed").data) ++
        (if (splitext inPath).2 = [] then ((".docx").data) else (splitext inPath).2))) := by
    simp only [apply_sentences_docx, Bool.not_true, Bool.false_eq_true, if_false,
      Except.ok.injEq, Prod.mk.injEq] at hsent
    exact hsent.1.symm
  refine ⟨?_, ?_, ?_, ?_⟩
  · rw [hw]
    by_cases hc : abspath cwd (outPath.getD ((splitext inPath).1 ++ (("_fixed").data) ++
        (if (splitext inPath).2 = [] then ((".docx").data) else (splitext inPath).2))) =
        abspath cwd inPath
    · rw [if_pos hc]
      exact hkey
    · rw [if_neg hc]
      exact hc
  · rw [hws]
    by_cases hc : abspath cwd (outPath.getD ((splitext inPath).1 ++ (("_fixed").data) ++
        (if (splitext inPath).2 = [] then ((".docx").data) else (splitext inPath).2))) =
        abspath cwd inPath
    · rw [if_pos hc]
      exact hkey
    · rw [if_neg hc]
      exact hc
  · intro hnone
    subst hnone
    rw [hw, hws]
    simp only [Option.getD_none]
    exact ⟨ite_self _, ite_self _⟩
  · intro o ho habs
    subst ho
    rw [hw, hws]
    simp only [Option.getD_some]
    exact ⟨if_pos habs, if_pos habs⟩

theorem never_overwrite_input_witness :
    (convert_docx (fun _ => (0:ℚ)) true (("a.docx").data) (some (("a.docx").data)) 3 false
        (("/h").data) [] = Except.ok (some (("a_fixed.docx").data), []) ∧
     apply_sentences_docx true (("a.docx").data) (some (("a.docx").data)) (("/h").data) []
        [(("Hi.").data)] = Except.ok ((("a_fixed.docx").data), [], 0)) ∧
    (¬(abspath (("/h").data) (("a_fixed.docx").data) =
        abspath (("/h").data) (("a.docx").data)) ∧
     ¬(abspath (("/h").data) (("a_fixed.docx").data) =
        abspath (("/h").data) (("a.docx").data)) ∧
     ((some (("a.docx").data) : Option Str) = none →
       (("a_fixed.docx").data) = (splitext (("a.docx").data)).1 ++ (("_fixed").data) ++
         (if (splitext (("a.docx").data)).2 = [] then ((".docx").data)
          else (splitext (("a.docx").data)).2) ∧
       (("a_fixed.docx").data) = (splitext (("a.docx").data)).1 ++ (("_fixed").data) ++
         (if (splitext (("a.docx").data)).2 = [] then ((".docx").data)
          else (splitext (("a.docx").data)).2)) ∧
     (∀ o, (some (("a.docx").data) : Option Str) = some o →
       abspath (("/h").data) o = abspath (("/h").data) (("a.docx").data) →
       (("a_fixed.docx").data) = (splitext (("a.docx").data)).1 ++ (("_fixed").data) ++
         (if (splitext (("a.docx").data)).2 = [] then ((".docx").data)
          else (splitext (("a.docx").data)).2) ∧
       (("a_fixed.docx").data) = (splitext (("a.docx").data)).1 ++ (("_fixed").data) ++
         (if (splitext (("a.docx").data)).2 = [] then ((".docx").data)
          else (splitext (("a.docx").data)).2))) :=
  ⟨⟨by decide, by decide⟩,
   never_overwrite_input (fun _ => (0:ℚ)) (("a.docx").data) (("/h").data)
     (some (("a.docx").data)) 3 [] [] (("a_fixed.docx").data) (("a_fixed.docx").data) [] 0
     [(("Hi.").data)] (by decide) (by decide)⟩
